import Mathlib

/-!
Shallow embedding of the sales-dashboard data pipeline (src/app.py).

A pandas DataFrame is modelled as a `Table`: an ordered header of column
names together with rows of cells.  Cells are nullable: `Cell.null` models
NaN/NaT/None.  Numbers are modelled as rationals (an idealization of
float64), timestamps as integer nanoseconds since the epoch (pandas
Timestamp resolution).  Column lookup (`df[c]`, `df.get(c)`) is by first
matching header entry; duplicate-label DataFrames are outside the model.
Fallible pandas operations that raise (`df.dropna(subset=...)` with a
missing label raises `KeyError`) are modelled with `Except String`.
-/

attribute [local semireducible] Rat.mul Rat.add Rat.sub Rat.inv Rat.ofScientific

/-- A single cell of a table: NaN/NaT/None, a string, a number (rational
idealization of float64), or a timestamp in nanoseconds since the epoch. -/
inductive Cell where
  | null
  | str (s : String)
  | num (q : ℚ)
  | date (ts : ℤ)
deriving DecidableEq

/-- A DataFrame: ordered column names plus rows of cells (positional). -/
structure Table where
  header : List String
  rows : List (List Cell)
deriving DecidableEq

/-- Well-formedness: every row has exactly one cell per header entry
(always true of a real DataFrame). -/
def Table.WF (t : Table) : Prop :=
  (t.rows.all fun r => r.length == t.header.length) = true

/-- Index of the first column with the given name, as pandas label lookup. -/
def colIdx (hdr : List String) (c : String) : Option Nat :=
  match hdr with
  | [] => none
  | h :: hs => if h = c then some 0 else (colIdx hs c).map (· + 1)

/-- Cell of a row at an optional column index; `Cell.null` when absent
(models `df.get` returning None for a missing column). -/
def getAt (row : List Cell) : Option Nat → Cell
  | some i => row.getD i Cell.null
  | none => Cell.null

/-- Cell of a row in the named column of table `t`. -/
def getCol (t : Table) (c : String) (row : List Cell) : Cell :=
  getAt row (colIdx t.header c)

/-- Strip leading and trailing whitespace from a character list. -/
def trimChars (cs : List Char) : List Char :=
  ((cs.dropWhile Char.isWhitespace).reverse.dropWhile Char.isWhitespace).reverse

/-- Python `str.strip()` (structural implementation, so that proofs can
evaluate it). -/
def strTrim (s : String) : String :=
  String.mk (trimChars s.data)

/-- ASCII lower-casing, Python `str.lower()` on ASCII column names. -/
def strLower (s : String) : String :=
  String.mk (s.data.map Char.toLower)

/-- Canonical renaming of one (already stripped) column name,
from the `rename_map` loop in src/app.py lines 91-104. -/
def canonName (c : String) : String :=
  let l := strLower c
  if l = "date" then "Date"
  else if l = "units" then "Units"
  else if l = "unitprice" ∨ l = "unit price" then "UnitPrice"
  else if l = "product" then "Product"
  else if l = "region" then "Region"
  else c

/-- Header normalization: strip surrounding whitespace
(`df.columns.str.strip()`), then apply the canonical rename map. -/
def renameHeader (hdr : List String) : List String :=
  hdr.map fun c => canonName (strTrim c)

/-- Apply header normalization to a table (rows unchanged). -/
def renameTable (t : Table) : Table :=
  ⟨renameHeader t.header, t.rows⟩

/-- Value of digit characters, most significant first. -/
def digitsVal (cs : List Char) : Nat :=
  cs.foldl (fun a c => a * 10 + (c.toNat - 48)) 0

/-- Parse an unsigned decimal numeral, optionally with a fractional part.
Scientific notation is not modelled. -/
def parseUnsigned (cs : List Char) : Option ℚ :=
  let intPart := cs.takeWhile Char.isDigit
  let rest := cs.dropWhile Char.isDigit
  match rest with
  | [] => if intPart.isEmpty then none else some (digitsVal intPart)
  | '.' :: frac =>
    if frac.all Char.isDigit ∧ ¬(intPart.isEmpty ∧ frac.isEmpty) then
      some ((digitsVal intPart : ℚ) + (digitsVal frac : ℚ) / ((10 : ℚ) ^ frac.length))
    else none
  | _ => none

/-- Parse a decimal numeral string with optional sign and surrounding
whitespace, as accepted by `pd.to_numeric`. -/
def parseNumString (s : String) : Option ℚ :=
  match trimChars s.data with
  | '-' :: rest => (parseUnsigned rest).map (fun q => -q)
  | '+' :: rest => parseUnsigned rest
  | cs => parseUnsigned cs

/-- Element coercion of `pd.to_numeric(..., errors="coerce")`: numbers kept,
numeric strings parsed, everything unparsable becomes null. -/
def toNumericCell : Cell → Cell
  | .num q => .num q
  | .str s =>
    match parseNumString s with
    | some q => .num q
    | none => .null
  | _ => .null

/-- Element coercion of `pd.to_datetime(..., errors="coerce")`: timestamps
kept, integer numbers read as nanosecond timestamps; string date parsing is
abstracted (unparsable values become null, per the spec). -/
def toDatetimeCell : Cell → Cell
  | .date ts => .date ts
  | .num q => if q.den = 1 then .date q.num else .null
  | _ => .null

/-- Multiplication with NaN propagation: `df["Units"] * df["UnitPrice"]`. -/
def mulCell : Cell → Cell → Cell
  | .num a, .num b => .num (a * b)
  | _, _ => .null

/-- Assignment `df[c] = v(row)`: overwrite the column named `c` in place,
or append a new column when absent (pandas column assignment). -/
def setColumnWith (t : Table) (c : String) (v : List Cell → Cell) : Table :=
  match colIdx t.header c with
  | some i => ⟨t.header, t.rows.map fun r => r.set i (v r)⟩
  | none => ⟨t.header ++ [c], t.rows.map fun r => r ++ [v r]⟩

/-- Coercion of one column (`df[c] = coerce(df.get(c))`): when the column is
absent the coerced scalar `f null` (None ↦ NaN/NaT) is broadcast. -/
def mapColumn (t : Table) (c : String) (f : Cell → Cell) : Table :=
  setColumnWith t c (fun r => f (getAt r (colIdx t.header c)))

/-- Revenue recomputation, src/app.py line 115:
`df["Revenue"] = df["Units"] * df["UnitPrice"]`. -/
def computeRevenue (t : Table) : Table :=
  setColumnWith t "Revenue"
    (fun r => mulCell (getAt r (colIdx t.header "Units")) (getAt r (colIdx t.header "UnitPrice")))

/-- Type standardization, src/app.py lines 110-115: coerce Date, Units and
UnitPrice, then always recompute Revenue. -/
def coerceTypes (t : Table) : Table :=
  computeRevenue
    (mapColumn (mapColumn (mapColumn t "Date" toDatetimeCell) "Units" toNumericCell)
      "UnitPrice" toNumericCell)

/-- Columns required non-null by the completeness check (line 118). -/
def requiredCols : List String := ["Date", "Product", "Region", "Units", "UnitPrice"]

/-- Model of `df.dropna(subset=subset)`: raises `KeyError` when a subset
label is not a column, otherwise drops every row that is null in any of the
subset columns. -/
def dropnaSubset (t : Table) (subset : List String) : Except String Table :=
  if subset.all (fun c => (colIdx t.header c).isSome) then
    .ok ⟨t.header, t.rows.filter fun r =>
      subset.all fun c => !(getAt r (colIdx t.header c) == Cell.null)⟩
  else
    .error ("KeyError: " ++ String.intercalate ", "
      (subset.filter fun c => !(colIdx t.header c).isSome))

/-- The Normalizer before the completeness drop: header normalization
followed by type coercion and Revenue recomputation (lines 88-115). -/
def preDrop (t : Table) : Table :=
  coerceTypes (renameTable t)

/-- The full Normalizer (lines 88-118): rename, coerce, recompute Revenue,
then drop structurally incomplete rows. -/
def normalizeTable (t : Table) : Except String Table :=
  dropnaSubset (preDrop t) requiredCols

/-- Transient UI filter state: selected regions, selected products, and an
optional valid two-endpoint date range given as day numbers (days since the
epoch); `none` models a missing/incomplete `st.date_input` value. -/
structure FilterSelection where
  regions : List String
  products : List String
  dateRange : Option (ℤ × ℤ)

/-- Nanoseconds per second (pandas Timestamp resolution). -/
def nsPerSecond : ℤ := 1000000000

/-- Nanoseconds per day. -/
def nsPerDay : ℤ := 86400 * nsPerSecond

/-- Region filter, src/app.py lines 162-165: empty selection yields the
empty table, otherwise keep rows whose Region is in the selection. -/
def regionFilter (t : Table) (sel : List String) : Table :=
  if sel.isEmpty then ⟨t.header, []⟩
  else ⟨t.header, t.rows.filter fun r =>
    match getCol t "Region" r with
    | .str s => sel.contains s
    | _ => false⟩

/-- Product filter, src/app.py lines 167-170, same empty-selection guard. -/
def productFilter (t : Table) (sel : List String) : Table :=
  if sel.isEmpty then ⟨t.header, []⟩
  else ⟨t.header, t.rows.filter fun r =>
    match getCol t "Product" r with
    | .str s => sel.contains s
    | _ => false⟩

/-- Date-range filter, src/app.py lines 172-175: start is midnight of the
first day; the end bound is midnight of the last day plus one day minus one
second; comparisons against a null (NaT) date are false. -/
def dateFilter (t : Table) (range : Option (ℤ × ℤ)) : Table :=
  match range with
  | none => t
  | some (d1, d2) =>
    ⟨t.header, t.rows.filter fun r =>
      match getCol t "Date" r with
      | .date ts => decide (d1 * nsPerDay ≤ ts ∧ ts ≤ d2 * nsPerDay + nsPerDay - nsPerSecond)
      | _ => false⟩

/-- The Filter Engine (lines 160-175): region, product, then date filter. -/
def filterTable (t : Table) (sel : FilterSelection) : Table :=
  dateFilter (productFilter (regionFilter t sel.regions) sel.products) sel.dateRange

/-- Final guard, src/app.py line 178: `df_clean = df_filtered.dropna(subset=["Revenue"])`. -/
def dfClean (t : Table) : Except String Table :=
  dropnaSubset t ["Revenue"]

/-- Filtered-and-cleaned table of one full pipeline run for a raw input
table and a filter selection. -/
def pipelineFiltered (raw : Table) (sel : FilterSelection) : Except String Table := do
  let t ← normalizeTable raw
  dfClean (filterTable t sel)

/-- Stable insertion of `x` into `l`: `x` goes before the first element `y`
with `le x y`; on ties the inserted (originally earlier) element stays first. -/
def insertBy (le : α → α → Bool) (x : α) : List α → List α
  | [] => [x]
  | y :: ys => if le x y then x :: y :: ys else y :: insertBy le x ys

/-- Stable insertion sort with respect to a Boolean comparator. -/
def sortBy (le : α → α → Bool) : List α → List α
  | [] => []
  | x :: xs => insertBy le x (sortBy le xs)

/-- Byte order on characters. -/
def strLtAux : List Char → List Char → Bool
  | [], [] => false
  | [], _ :: _ => true
  | _ :: _, [] => false
  | a :: as, b :: bs =>
    if a.toNat < b.toNat then true
    else if b.toNat < a.toNat then false
    else strLtAux as bs

/-- Lexicographic order on cells of like type, used for the ascending key
order of `groupby(sort=True)`; unlike types (which pandas cannot sort and
raises on) are ordered by an arbitrary constructor rank. -/
def cellLeB (a b : Cell) : Bool :=
  match a, b with
  | .num x, .num y => decide (x ≤ y)
  | .str x, .str y => !(strLtAux y.data x.data)
  | .date x, .date y => decide (x ≤ y)
  | .null, .null => true
  | .null, _ => true
  | _, .null => false
  | .num _, _ => true
  | _, .num _ => false
  | .str _, _ => true
  | _, .str _ => false

/-- Cells of the named column, top to bottom. -/
def colCells (t : Table) (c : String) : List Cell :=
  t.rows.map fun r => getCol t c r

/-- Distinct non-null values of the named column, in order of first
occurrence (`groupby` drops null keys). -/
def distinctKeys (t : Table) (c : String) : List Cell :=
  ((colCells t c).filter fun x => !(x == Cell.null)).eraseDups

/-- Sum of the numeric cells of column `valCol` over the rows whose
`keyCol` cell equals `k` (NaN-skipping, as pandas `sum`). -/
def keyValSum (t : Table) (keyCol valCol : String) (k : Cell) : ℚ :=
  (((t.rows.filter fun r => getCol t keyCol r == k).map fun r =>
    getCol t valCol r).filterMap fun c =>
      match c with
      | .num q => some q
      | _ => none).sum

/-- Model of `df.groupby(keyCol)[valCol].sum()`: one (key, sum) pair per
distinct non-null key, keys in ascending order. -/
def groupSum (t : Table) (keyCol valCol : String) : List (Cell × ℚ) :=
  (sortBy cellLeB (distinctKeys t keyCol)).map fun k => (k, keyValSum t keyCol valCol k)

/-- Ascending-revenue comparator over grouped (key, sum) pairs. -/
def ascLeQ (a b : Cell × ℚ) : Bool := decide (a.2 ≤ b.2)

/-- Model of `sort_values(ascending=False)`: pandas `nargsort` argsorts
ascending (numpy introsort, which is insertion sort — stable — on small
arrays) and then reverses the order for a descending sort, so tied values
end up in reverse encounter order.  Modelled as a stable ascending
insertion sort followed by a reversal. -/
def sortValuesDesc (l : List (Cell × ℚ)) : List (Cell × ℚ) :=
  (sortBy ascLeQ l).reverse

/-- src/app.py lines 255-259: revenue grouped by Region, sorted by
descending revenue. -/
def rev_by_region (t : Table) : List (Cell × ℚ) :=
  sortValuesDesc (groupSum t "Region" "Revenue")

/-- Numeric value of a cell, if any. -/
def numVal : Cell → Option ℚ
  | .num q => some q
  | _ => none

/-- NaN-skipping column sum (pandas `Series.sum`; 0 on an empty column). -/
def colSum (t : Table) (c : String) : ℚ :=
  ((colCells t c).filterMap numVal).sum

/-- NaN-skipping column mean; `none` models the NaN that pandas
`Series.mean` returns on an empty column. -/
def colMean (t : Table) (c : String) : Option ℚ :=
  let vs := (colCells t c).filterMap numVal
  if vs.length = 0 then none else some (vs.sum / (vs.length : ℚ))

/-- src/app.py line 187. -/
def total_revenue (t : Table) : ℚ := colSum t "Revenue"

/-- src/app.py line 188. -/
def total_units (t : Table) : ℚ := colSum t "Units"

/-- src/app.py line 189. -/
def avg_unit_price (t : Table) : Option ℚ := colMean t "UnitPrice"

/-- Insert a thousands separator every three digits, input and output
least-significant first. -/
def group3 : List Char → List Char
  | a :: b :: c :: d :: rest => a :: b :: c :: ',' :: group3 (d :: rest)
  | l => l

/-- Round to the nearest integer, ties to even (Python `format` rounding). -/
def roundHalfEven (q : ℚ) : ℤ :=
  let n := ⌊q⌋
  let f := q - (n : ℚ)
  if f < 1 / 2 then n
  else if 1 / 2 < f then n + 1
  else if n % 2 = 0 then n else n + 1

/-- Integer rendered with thousands separators, as Python `f"{i:,.0f}"`. -/
def formatThousands (i : ℤ) : String :=
  let digits := (group3 (Nat.toDigits 10 i.natAbs).reverse).reverse
  (if i < 0 then "-" else "") ++ String.mk digits

/-- Rendering of the Average Unit Price metric, src/app.py line 212:
`f"${avg_unit_price:,.0f}"`; the NaN of an empty mean renders as the
defined sentinel string "$nan" rather than raising. -/
def formatMoney0 : Option ℚ → String
  | none => "$" ++ "nan"
  | some q => "$" ++ formatThousands (roundHalfEven q)

/-- A CSV field needs quoting when it contains a delimiter, a quote, or a
line break (csv.QUOTE_MINIMAL, used by `to_csv`). -/
def needsQuote (cs : List Char) : Bool :=
  cs.any fun ch => ch == ',' || ch == '"' || ch == '\n' || ch == '\r'

/-- Double every quote character (CSV quote escaping). -/
def doubleQuotes : List Char → List Char
  | [] => []
  | c :: cs => if c = '"' then '"' :: '"' :: doubleQuotes cs else c :: doubleQuotes cs

/-- Minimal quoting of one CSV field. -/
def escField (cs : List Char) : List Char :=
  if needsQuote cs then '"' :: doubleQuotes cs ++ ['"'] else cs

/-- One CSV line: fields joined with commas. -/
def serRow : List (List Char) → List Char
  | [] => []
  | [f] => escField f
  | f :: g :: fs => escField f ++ ',' :: serRow (g :: fs)

/-- Serialized CSV document: each line terminated by a newline, as
`DataFrame.to_csv` emits. -/
def serTable (rowsText : List (List (List Char))) : List Char :=
  (rowsText.map fun r => serRow r ++ ['\n']).flatten

/-- Rendering of a rational with up to twelve exact fractional digits;
integral values render with a trailing ".0" as float64 repr does. -/
def fracDigits : Nat → Nat → Nat → List Char
  | 0, _, _ => []
  | _ + 1, 0, _ => []
  | fuel + 1, r, d =>
    Char.ofNat (48 + r * 10 / d) :: fracDigits fuel (r * 10 % d) d

/-- Decimal rendering of a rational (float repr abstracted: non-terminating
expansions are truncated at twelve digits). -/
def renderRat (q : ℚ) : String :=
  let n := q.num.natAbs
  let d := q.den
  let digits := fracDigits 12 (n % d) d
  (if q < 0 then "-" else "") ++ Nat.repr (n / d) ++ "." ++
    (if digits.isEmpty then "0" else String.mk digits)

/-- Text a cell contributes to the CSV export: NaN as the empty field,
strings verbatim, numbers in decimal, timestamps via their nanosecond count
(the concrete date string format is abstracted). -/
def renderCell : Cell → String
  | .null => ""
  | .str s => s
  | .num q => renderRat q
  | .date ts => Int.repr ts

/-- src/app.py line 328, `df_clean.to_csv(index=False)`: a header line of
the column names followed by one line per row. -/
def toCsvChars (t : Table) : List Char :=
  serTable ((t.header.map String.data) ::
    t.rows.map fun r => r.map fun c => (renderCell c).data)

/-- Unquoted-field parse: the field runs to the next comma or newline. -/
def parseUnquoted : List Char → List Char × List Char
  | [] => ([], [])
  | c :: rest =>
    if c = ',' ∨ c = '\n' then ([], c :: rest)
    else
      let p := parseUnquoted rest
      (c :: p.1, p.2)

/-- Quoted-field parse, after the opening quote: doubled quotes collapse,
a lone quote closes the field; `none` on an unterminated field. -/
def parseQuoted : List Char → Option (List Char × List Char)
  | [] => none
  | c :: rest =>
    if c = '"' then
      match rest with
      | [] => some ([], [])
      | c2 :: rest2 =>
        if c2 = '"' then (parseQuoted rest2).map fun p => ('"' :: p.1, p.2)
        else some ([], c2 :: rest2)
    else (parseQuoted rest).map fun p => (c :: p.1, p.2)

/-- Parse one CSV field. -/
def parseField (cs : List Char) : Option (List Char × List Char) :=
  match cs with
  | [] => some ([], [])
  | c :: rest =>
    if c = '"' then parseQuoted rest
    else some (parseUnquoted (c :: rest))

/-- Parse one CSV record (fuelled; fuel bounds the number of fields). -/
def parseRowAux : Nat → List Char → Option (List (List Char) × List Char)
  | 0, _ => none
  | fuel + 1, cs =>
    match parseField cs with
    | none => none
    | some (f, rest) =>
      match rest with
      | ',' :: rest2 => (parseRowAux fuel rest2).map fun p => (f :: p.1, p.2)
      | '\n' :: rest2 => some ([f], rest2)
      | [] => some ([f], [])
      | _ => none

/-- Parse all CSV records (fuelled; fuel bounds the number of records). -/
def parseCsvAux : Nat → List Char → Option (List (List (List Char)))
  | 0, cs => if cs.isEmpty then some [] else none
  | fuel + 1, cs =>
    if cs.isEmpty then some [] else
      match parseRowAux (cs.length + 1) cs with
      | none => none
      | some (row, rest) => (parseCsvAux fuel rest).map fun rows => row :: rows

/-- CSV re-parse (model of `pd.read_csv` at the text level: the grid of
field strings it reads back). -/
def parseCsv (cs : List Char) : Option (List (List (List Char))) :=
  parseCsvAux (cs.length + 1) cs

/-- Row-agreement away from source Revenue columns: both rows have equal
length and equal cells at every position whose (normalized) header entry is
not "Revenue". -/
def rowAgreeOffRev (hdr : List String) (r r2 : List Cell) : Prop :=
  r.length = r2.length ∧
    ∀ j, j < r.length → hdr.getD j "" ≠ "Revenue" →
      r.getD j Cell.null = r2.getD j Cell.null

/-- Two raw tables that differ at most in the values stored in source
columns that the Normalizer sees as named "Revenue" (identical headers,
identical cells everywhere else). -/
def tablesAgreeOffRev (t t2 : Table) : Prop :=
  t.header = t2.header ∧ t.rows.length = t2.rows.length ∧
    ∀ p ∈ t.rows.zip t2.rows, rowAgreeOffRev (renameHeader t.header) p.1 p.2

/-- Header has at most one column that the Normalizer sees as named
"Revenue" (pandas mangles duplicate labels on load). -/
def atMostOneRevCol (hdr : List String) : Prop :=
  ∀ j, j < hdr.length → ∀ k, k < hdr.length →
    (renameHeader hdr).getD j "" = "Revenue" →
    (renameHeader hdr).getD k "" = "Revenue" → j = k

/-- Concrete raw table lacking a Region column (claim C1). -/
def rawNoRegion : Table :=
  ⟨["Date", "Product", "Units", "UnitPrice"],
   [[Cell.date 0, Cell.str "A", Cell.num 2, Cell.num 3]]⟩

/-- Concrete raw table with Product and Region but no Units column (claim C10). -/
def rawNoUnits : Table :=
  ⟨["Date", "Product", "Region", "UnitPrice"],
   [[Cell.date 0, Cell.str "A", Cell.str "East", Cell.num 3]]⟩

/-- Concrete well-formed raw table with one complete row. -/
def rawOneRow : Table :=
  ⟨["Date", "Product", "Region", "Units", "UnitPrice"],
   [[Cell.date 0, Cell.str "A", Cell.str "East", Cell.num 2, Cell.num 3]]⟩

/-- Normalized form of `rawOneRow`. -/
def cleanOneRow : Table :=
  ⟨["Date", "Product", "Region", "Units", "UnitPrice", "Revenue"],
   [[Cell.date 0, Cell.str "A", Cell.str "East", Cell.num 2, Cell.num 3, Cell.num 6]]⟩

/-- Cleaned table whose single row is dated one nanosecond before midnight
at the end of epoch day 0 (23:59:59.999999999), used against claim C4. -/
def lateRowTable : Table :=
  ⟨["Date", "Product", "Region", "Units", "UnitPrice", "Revenue"],
   [[Cell.date (86400 * 1000000000 - 1), Cell.str "A", Cell.str "East",
     Cell.num 1, Cell.num 1, Cell.num 1]]⟩

/-- Selection keeping every region and product of the example tables, with
date range [day 0, day 0]. -/
def dayZeroSelection : FilterSelection :=
  ⟨["East"], ["A"], some (0, 0)⟩

/-- Region/Revenue contributions [(East,300),(West,100),(East,50)] (claim C7). -/
def revByRegionExample : Table :=
  ⟨["Region", "Revenue"],
   [[Cell.str "East", Cell.num 300],
    [Cell.str "West", Cell.num 100],
    [Cell.str "East", Cell.num 50]]⟩

/-- The empty filtered table over the canonical columns (claim C5). -/
def emptyClean : Table :=
  ⟨["Date", "Product", "Region", "Units", "UnitPrice", "Revenue"], []⟩

/-- Small cleaned table exercising CSV quoting (a comma and a quote in
field values). -/
def csvExample : Table :=
  ⟨["Product", "Region", "Revenue"],
   [[Cell.str "A,plain", Cell.str "He said \"hi\"", Cell.num 6],
    [Cell.null, Cell.str "West", Cell.num (5 / 2)]]⟩

/-- Mid-pipeline simulation relation: equal headers, equally many rows, and
rows agreeing outside the columns currently named "Revenue". -/
def tablesSim (t t2 : Table) : Prop :=
  t.header = t2.header ∧ t.rows.length = t2.rows.length ∧
    ∀ p ∈ t.rows.zip t2.rows, rowAgreeOffRev t.header p.1 p.2

/-- Concrete raw table carrying a source Revenue column (value 999). -/
def rawWithRevenue : Table :=
  ⟨["Date", "Product", "Region", "Units", "UnitPrice", "Revenue"],
   [[Cell.date 0, Cell.str "A", Cell.str "East", Cell.num 2, Cell.num 3, Cell.num 999]]⟩

/-- The same raw table with different junk in the source Revenue column. -/
def rawWithRevenue2 : Table :=
  ⟨["Date", "Product", "Region", "Units", "UnitPrice", "Revenue"],
   [[Cell.date 0, Cell.str "A", Cell.str "East", Cell.num 2, Cell.num 3, Cell.str "junk"]]⟩

-- ### End of definitions; theorems follow. ###

/-- Column lookup fails exactly when the name is absent. -/
lemma colIdx_eq_none_iff (hdr : List String) (c : String) :
    colIdx hdr c = none ↔ c ∉ hdr := by
  induction hdr with
  | nil => simp [colIdx]
  | cons h hs ih =>
    by_cases hh : h = c
    · subst hh; simp [colIdx]
    · simp [colIdx, hh, ih, Ne.symm hh]

/-- Column lookup succeeds exactly when the name is present. -/
lemma colIdx_isSome_iff (hdr : List String) (c : String) :
    (colIdx hdr c).isSome = true ↔ c ∈ hdr := by
  rw [Option.isSome_iff_ne_none, ne_eq, colIdx_eq_none_iff]
  exact not_not

/-- A found column index is within the header. -/
lemma colIdx_lt_length (hdr : List String) (c : String) (i : Nat)
    (h : colIdx hdr c = some i) : i < hdr.length := by
  induction hdr generalizing i with
  | nil => simp [colIdx] at h
  | cons x hs ih =>
    rw [colIdx] at h
    by_cases hx : x = c
    · rw [if_pos hx] at h
      injection h with h
      simp only [List.length_cons]
      omega
    · rw [if_neg hx] at h
      cases hcs : colIdx hs c with
      | none => rw [hcs] at h; simp at h
      | some j =>
        rw [hcs] at h
        simp only [Option.map_some'] at h
        injection h with h
        have hj := ih j hcs
        simp only [List.length_cons]
        omega

/-- A found column index points at the requested name. -/
lemma colIdx_getD (hdr : List String) (c : String) (i : Nat)
    (h : colIdx hdr c = some i) : hdr.getD i "" = c := by
  induction hdr generalizing i with
  | nil => simp [colIdx] at h
  | cons x hs ih =>
    rw [colIdx] at h
    by_cases hx : x = c
    · rw [if_pos hx] at h
      injection h with h
      subst h
      simpa using hx
    · rw [if_neg hx] at h
      cases hcs : colIdx hs c with
      | none => rw [hcs] at h; simp at h
      | some j =>
        rw [hcs] at h
        simp only [Option.map_some'] at h
        injection h with h
        subst h
        simpa using ih j hcs

/-- Header of a column assignment: unchanged when the column exists,
extended by it otherwise. -/
lemma setColumnWith_header (t : Table) (c : String) (v : List Cell → Cell) :
    (setColumnWith t c v).header =
      if (colIdx t.header c).isSome then t.header else t.header ++ [c] := by
  unfold setColumnWith
  cases h : colIdx t.header c <;> simp [h]

/-- Membership of other names in the header is unchanged by assignment. -/
lemma setColumnWith_header_mem (t : Table) (c : String) (v : List Cell → Cell)
    (x : String) (hne : x ≠ c) :
    x ∈ (setColumnWith t c v).header ↔ x ∈ t.header := by
  rw [setColumnWith_header]
  split
  · exact Iff.rfl
  · simp [hne]

/-- The assigned column is present afterwards. -/
lemma setColumnWith_mem_self (t : Table) (c : String) (v : List Cell → Cell) :
    c ∈ (setColumnWith t c v).header := by
  rw [setColumnWith_header]
  split
  · rw [← colIdx_isSome_iff]; assumption
  · simp

/-- Membership of names other than Date/Units/UnitPrice/Revenue in the
pre-drop header matches the normalized raw header. -/
lemma preDrop_header_mem (raw : Table) (x : String)
    (h1 : x ≠ "Date") (h2 : x ≠ "Units") (h3 : x ≠ "UnitPrice") (h4 : x ≠ "Revenue") :
    x ∈ (preDrop raw).header ↔ x ∈ renameHeader raw.header := by
  unfold preDrop coerceTypes computeRevenue mapColumn
  rw [setColumnWith_header_mem _ _ _ _ h4, setColumnWith_header_mem _ _ _ _ h3,
    setColumnWith_header_mem _ _ _ _ h2, setColumnWith_header_mem _ _ _ _ h1]
  rfl

/-- The product filter of a row-less table has no rows. -/
lemma productFilter_rows_nil (t : Table) (sel : List String) (h : t.rows = []) :
    (productFilter t sel).rows = [] := by
  unfold productFilter
  split <;> simp [h]

/-- The date filter of a row-less table has no rows. -/
lemma dateFilter_rows_nil (t : Table) (range : Option (ℤ × ℤ)) (h : t.rows = []) :
    (dateFilter t range).rows = [] := by
  cases range with
  | none => simpa [dateFilter] using h
  | some p => cases p; simp [dateFilter, h]

/-- Claim C3: an empty Region selection (or an empty Product selection)
makes the Filter Engine return a table with zero rows, regardless of the
other filters. -/
theorem C3_empty_selection_empty_result (t : Table) (sel : FilterSelection)
    (h : sel.regions = [] ∨ sel.products = []) :
    (filterTable t sel).rows = [] := by
  unfold filterTable
  apply dateFilter_rows_nil
  rcases h with h | h
  · apply productFilter_rows_nil
    simp [regionFilter, h]
  · simp [productFilter, h]

/-- Witness for C3 at a concrete table and empty Region selection. -/
theorem C3_witness :
    (filterTable cleanOneRow ⟨[], ["A"], none⟩).rows = [] :=
  C3_empty_selection_empty_result cleanOneRow ⟨[], ["A"], none⟩ (Or.inl rfl)

/-- Claim C5: on the empty filtered table, totalRevenue and totalUnits are
0, avgUnitPrice is the NaN marker, and the Average Unit Price metric
renders as the defined sentinel "$nan" instead of dividing by zero. -/
theorem C5_empty_table_kpis (t : Table) (h : t.rows = []) :
    total_revenue t = 0 ∧ total_units t = 0 ∧ avg_unit_price t = none ∧
      formatMoney0 (avg_unit_price t) = "$nan" := by
  have hr : ∀ c, colCells t c = [] := fun c => by simp [colCells, h]
  refine ⟨?_, ?_, ?_, ?_⟩
  · simp [total_revenue, colSum, hr]
  · simp [total_units, colSum, hr]
  · simp [avg_unit_price, colMean, hr]
  · simp [avg_unit_price, colMean, hr, formatMoney0]

/-- Witness for C5 at the concrete empty cleaned table. -/
theorem C5_witness :
    total_revenue emptyClean = 0 ∧ total_units emptyClean = 0 ∧
      avg_unit_price emptyClean = none ∧
      formatMoney0 (avg_unit_price emptyClean) = "$nan" :=
  C5_empty_table_kpis emptyClean rfl

/-- Counterexample to claim C4 as stated: the single row of
`lateRowTable` is dated strictly inside the end day D2 = epoch day 0 (one
nanosecond before the following midnight), yet the Filter Engine with range
[day 0, day 0] drops it, because the code's end bound is midnight plus one
day minus one whole second. -/
theorem C4_counterexample :
    (0 * nsPerDay ≤ 86400 * 1000000000 - 1 ∧
      (86400 * 1000000000 - 1 : ℤ) < (0 + 1) * nsPerDay) ∧
    (filterTable lateRowTable dayZeroSelection).rows = [] :=
  ⟨by decide, rfl⟩

/-- Claim C4 amended: with a valid two-endpoint range [D1, D2], a row whose
Date is the timestamp ts is retained iff midnight of D1 ≤ ts ≤ 23:59:59.000
of D2.  In particular a row dated exactly 23:59:59 on D2 is retained and a
row dated 00:00:01 on D2+1 is excluded, but timestamps in the open final
second of D2 (after 23:59:59.000) are excluded as well, so the boundary is
not inclusive of the entire end date. -/
theorem C4_end_boundary (t : Table) (d1 d2 : ℤ) (row : List Cell) (ts : ℤ)
    (hmem : row ∈ t.rows) (hdate : getCol t "Date" row = Cell.date ts) :
    row ∈ (dateFilter t (some (d1, d2))).rows ↔
      d1 * nsPerDay ≤ ts ∧ ts ≤ d2 * nsPerDay + nsPerDay - nsPerSecond := by
  unfold dateFilter
  simp only [List.mem_filter]
  constructor
  · rintro ⟨-, hp⟩
    rw [hdate] at hp
    exact of_decide_eq_true hp
  · intro hts
    refine ⟨hmem, ?_⟩
    rw [hdate]
    exact decide_eq_true hts

/-- Witness for C4's amended boundary at concrete values: the 23:59:59
row of day 0 is retained and the 00:00:01 row of day 1 would not satisfy
the bound. -/
theorem C4_witness :
    ((lateRowTable.rows.getD 0 [] ∈
        (dateFilter lateRowTable (some (0, 0))).rows ↔
      0 * nsPerDay ≤ 86400 * 1000000000 - 1 ∧
        (86400 * 1000000000 - 1 : ℤ) ≤ 0 * nsPerDay + nsPerDay - nsPerSecond)) :=
  C4_end_boundary lateRowTable 0 0 (lateRowTable.rows.getD 0 [])
    (86400 * 1000000000 - 1) (by simp [lateRowTable]) rfl

/-- Counterexample to claim C1 as stated: a raw table that lacks the Region
column makes the Normalizer's completeness check raise KeyError — no table
(in particular no empty table) is produced. -/
theorem C1_counterexample :
    normalizeTable rawNoRegion = Except.error "KeyError: Region" ∧
      (normalizeTable rawNoRegion).isOk = false :=
  ⟨rfl, rfl⟩

/-- Claim C1 amended: a raw table with no column that normalizes to
"Region" makes the completeness check (`dropna(subset=...)`) raise a
KeyError, so the pipeline run terminates with an error instead of
producing an all-rows-dropped table. -/
theorem C1_missing_region_raises (raw : Table)
    (h : colIdx (renameHeader raw.header) "Region" = none) :
    ∃ msg, normalizeTable raw = Except.error msg := by
  have hmem : "Region" ∉ (preDrop raw).header := by
    rw [preDrop_header_mem raw "Region" (by decide) (by decide) (by decide) (by decide)]
    rw [colIdx_eq_none_iff] at h
    exact h
  have hcond : ¬(requiredCols.all (fun c => (colIdx (preDrop raw).header c).isSome) = true) := by
    intro hall
    rw [List.all_eq_true] at hall
    have := hall "Region" (by decide)
    rw [colIdx_isSome_iff] at this
    exact hmem this
  unfold normalizeTable dropnaSubset
  rw [if_neg hcond]
  exact ⟨_, rfl⟩

/-- Witness for C1's amended claim at the concrete Region-less table. -/
theorem C1_witness : ∃ msg, normalizeTable rawNoRegion = Except.error msg :=
  C1_missing_region_raises rawNoRegion (by decide)

/-- getD of a list after setting the same position. -/
lemma getD_set_self {α : Type} (l : List α) (i : Nat) (a d : α) (h : i < l.length) :
    (l.set i a).getD i d = a := by
  induction l generalizing i with
  | nil => simp at h
  | cons x xs ih =>
    cases i with
    | zero => rfl
    | succ j => exact ih j (by simpa using h)

/-- getD of a list after setting a different position. -/
lemma getD_set_ne {α : Type} (l : List α) (i j : Nat) (a d : α) (h : i ≠ j) :
    (l.set i a).getD j d = l.getD j d := by
  induction l generalizing i j with
  | nil => rfl
  | cons x xs ih =>
    cases i with
    | zero =>
      cases j with
      | zero => exact absurd rfl h
      | succ k => rfl
    | succ i2 =>
      cases j with
      | zero => rfl
      | succ k => exact ih i2 k (by omega)

/-- getD inside the left part of an append. -/
lemma getD_append_left {α : Type} (l l2 : List α) (i : Nat) (d : α) (h : i < l.length) :
    (l ++ l2).getD i d = l.getD i d := by
  induction l generalizing i with
  | nil => simp at h
  | cons x xs ih =>
    cases i with
    | zero => rfl
    | succ j => exact ih j (by simpa using h)

/-- getD at the first appended position. -/
lemma getD_append_length {α : Type} (l : List α) (x d : α) :
    (l ++ [x]).getD l.length d = x := by
  induction l with
  | nil => rfl
  | cons y ys ih => exact ih

/-- Appending a missing column name places it at the old length. -/
lemma colIdx_append_self (hdr : List String) (c : String)
    (h : colIdx hdr c = none) : colIdx (hdr ++ [c]) c = some hdr.length := by
  induction hdr with
  | nil => simp [colIdx]
  | cons x hs ih =>
    rw [colIdx] at h
    by_cases hx : x = c
    · rw [if_pos hx] at h; simp at h
    · rw [if_neg hx] at h
      have h2 : colIdx hs c = none := by
        cases hcs : colIdx hs c with
        | none => rfl
        | some j => rw [hcs] at h; simp at h
      simp [colIdx, hx, ih h2]

/-- Lookup of a different name is unaffected by appending a column. -/
lemma colIdx_append_of_ne (hdr : List String) (c c2 : String) (h : c2 ≠ c) :
    colIdx (hdr ++ [c]) c2 = colIdx hdr c2 := by
  induction hdr with
  | nil => simp [colIdx, (Ne.symm h : c ≠ c2)]
  | cons x hs ih =>
    by_cases hx : x = c2
    · simp [colIdx, hx]
    · simp [colIdx, hx, ih]

/-- Well-formedness in propositional form. -/
lemma WF_iff (t : Table) : t.WF ↔ ∀ r ∈ t.rows, r.length = t.header.length := by
  simp [Table.WF, List.all_eq_true]

/-- Header normalization preserves well-formedness. -/
lemma renameTable_wf (t : Table) (h : t.WF) : (renameTable t).WF := by
  rw [WF_iff] at h ⊢
  simpa [renameTable, renameHeader] using h

/-- Behaviour of a column assignment on each row: the assigned column reads
back the assigned value, every other column is unchanged. -/
lemma setColumnWith_rows_spec (t : Table) (c : String) (v : List Cell → Cell)
    (hwf : t.WF) :
    (setColumnWith t c v).WF ∧
    ∀ r2 ∈ (setColumnWith t c v).rows, ∃ r ∈ t.rows,
      getCol (setColumnWith t c v) c r2 = v r ∧
      ∀ c2, c2 ≠ c → getCol (setColumnWith t c v) c2 r2 = getCol t c2 r := by
  rw [WF_iff] at hwf
  cases h : colIdx t.header c with
  | some i =>
    have hout : setColumnWith t c v = ⟨t.header, t.rows.map fun r => r.set i (v r)⟩ := by
      unfold setColumnWith; rw [h]
    have hi : i < t.header.length := colIdx_lt_length _ _ _ h
    constructor
    · rw [WF_iff, hout]
      intro r2 hr2
      simp only [List.mem_map] at hr2
      obtain ⟨r, hr, rfl⟩ := hr2
      simpa using hwf r hr
    · intro r2 hr2
      rw [hout] at hr2
      simp only [List.mem_map] at hr2
      obtain ⟨r, hr, rfl⟩ := hr2
      refine ⟨r, hr, ?_, ?_⟩
      · rw [hout]
        show getAt (r.set i (v r)) (colIdx t.header c) = v r
        rw [h]
        exact getD_set_self _ _ _ _ (by rw [hwf r hr]; exact hi)
      · intro c2 hc2
        rw [hout]
        show getAt (r.set i (v r)) (colIdx t.header c2) = getAt r (colIdx t.header c2)
        cases h2 : colIdx t.header c2 with
        | none => rfl
        | some j =>
          have hji : i ≠ j := by
            intro hij
            subst hij
            exact hc2 ((colIdx_getD _ _ _ h2).symm.trans (colIdx_getD _ _ _ h))
          exact getD_set_ne _ _ _ _ _ hji
  | none =>
    have hout : setColumnWith t c v = ⟨t.header ++ [c], t.rows.map fun r => r ++ [v r]⟩ := by
      unfold setColumnWith; rw [h]
    constructor
    · rw [WF_iff, hout]
      intro r2 hr2
      simp only [List.mem_map] at hr2
      obtain ⟨r, hr, rfl⟩ := hr2
      simpa using hwf r hr
    · intro r2 hr2
      rw [hout] at hr2
      simp only [List.mem_map] at hr2
      obtain ⟨r, hr, rfl⟩ := hr2
      refine ⟨r, hr, ?_, ?_⟩
      · rw [hout]
        show getAt (r ++ [v r]) (colIdx (t.header ++ [c]) c) = v r
        rw [colIdx_append_self _ _ h, ← hwf r hr]
        exact getD_append_length _ _ _
      · intro c2 hc2
        rw [hout]
        show getAt (r ++ [v r]) (colIdx (t.header ++ [c]) c2) = getAt r (colIdx t.header c2)
        rw [colIdx_append_of_ne _ _ _ hc2]
        cases h2 : colIdx t.header c2 with
        | none => rfl
        | some j =>
          exact getD_append_left _ _ _ _ (by rw [hwf r hr]; exact colIdx_lt_length _ _ _ h2)

/-- Coercion results are numbers or null. -/
lemma toNumericCell_num_or_null (c : Cell) :
    toNumericCell c = Cell.null ∨ ∃ q, toNumericCell c = Cell.num q := by
  cases c with
  | str s =>
    simp only [toNumericCell]
    cases h : parseNumString s with
    | none => exact Or.inl rfl
    | some q => exact Or.inr ⟨q, rfl⟩
  | null => exact Or.inl rfl
  | num q => exact Or.inr ⟨q, rfl⟩
  | date ts => exact Or.inl rfl

/-- Shape of the Normalizer output before the completeness drop: the four
computed columns exist; Units and UnitPrice cells are coercion outputs;
Revenue is exactly the product of the Units and UnitPrice cells; a missing
source column yields an all-null column. -/
lemma preDrop_shape (raw : Table) (hwf : raw.WF) :
    (preDrop raw).WF ∧
    "Date" ∈ (preDrop raw).header ∧ "Units" ∈ (preDrop raw).header ∧
    "UnitPrice" ∈ (preDrop raw).header ∧ "Revenue" ∈ (preDrop raw).header ∧
    ∀ row ∈ (preDrop raw).rows,
      (∃ a, getCol (preDrop raw) "Units" row = toNumericCell a) ∧
      (∃ a, getCol (preDrop raw) "UnitPrice" row = toNumericCell a) ∧
      getCol (preDrop raw) "Revenue" row =
        mulCell (getCol (preDrop raw) "Units" row) (getCol (preDrop raw) "UnitPrice" row) ∧
      (colIdx (renameHeader raw.header) "Date" = none →
        getCol (preDrop raw) "Date" row = Cell.null) ∧
      (colIdx (renameHeader raw.header) "Units" = none →
        getCol (preDrop raw) "Units" row = Cell.null) ∧
      (colIdx (renameHeader raw.header) "UnitPrice" = none →
        getCol (preDrop raw) "UnitPrice" row = Cell.null) := by
  unfold preDrop coerceTypes
  set T0 := renameTable raw with hT0def
  set T1 := mapColumn T0 "Date" toDatetimeCell with hT1def
  set T2 := mapColumn T1 "Units" toNumericCell with hT2def
  set T3 := mapColumn T2 "UnitPrice" toNumericCell with hT3def
  set T4 := computeRevenue T3 with hT4def
  have hwf0 : T0.WF := renameTable_wf raw hwf
  have e1 : setColumnWith T0 "Date" (fun r => toDatetimeCell (getAt r (colIdx T0.header "Date"))) = T1 := rfl
  have e2 : setColumnWith T1 "Units" (fun r => toNumericCell (getAt r (colIdx T1.header "Units"))) = T2 := rfl
  have e3 : setColumnWith T2 "UnitPrice" (fun r => toNumericCell (getAt r (colIdx T2.header "UnitPrice"))) = T3 := rfl
  have e4 : setColumnWith T3 "Revenue"
      (fun r => mulCell (getAt r (colIdx T3.header "Units")) (getAt r (colIdx T3.header "UnitPrice"))) = T4 := rfl
  have s1 := setColumnWith_rows_spec T0 "Date" (fun r => toDatetimeCell (getAt r (colIdx T0.header "Date"))) hwf0
  rw [e1] at s1
  obtain ⟨hwf1, hrows1⟩ := s1
  have s2 := setColumnWith_rows_spec T1 "Units" (fun r => toNumericCell (getAt r (colIdx T1.header "Units"))) hwf1
  rw [e2] at s2
  obtain ⟨hwf2, hrows2⟩ := s2
  have s3 := setColumnWith_rows_spec T2 "UnitPrice" (fun r => toNumericCell (getAt r (colIdx T2.header "UnitPrice"))) hwf2
  rw [e3] at s3
  obtain ⟨hwf3, hrows3⟩ := s3
  have s4 := setColumnWith_rows_spec T3 "Revenue"
    (fun r => mulCell (getAt r (colIdx T3.header "Units")) (getAt r (colIdx T3.header "UnitPrice"))) hwf3
  rw [e4] at s4
  obtain ⟨hwf4, hrows4⟩ := s4
  have hD1 : "Date" ∈ T1.header := by rw [← e1]; exact setColumnWith_mem_self _ _ _
  have hU2 : "Units" ∈ T2.header := by rw [← e2]; exact setColumnWith_mem_self _ _ _
  have hP3 : "UnitPrice" ∈ T3.header := by rw [← e3]; exact setColumnWith_mem_self _ _ _
  have hR4 : "Revenue" ∈ T4.header := by rw [← e4]; exact setColumnWith_mem_self _ _ _
  have hD4 : "Date" ∈ T4.header := by
    rw [← e4, setColumnWith_header_mem _ _ _ _ (by decide), ← e3,
      setColumnWith_header_mem _ _ _ _ (by decide), ← e2,
      setColumnWith_header_mem _ _ _ _ (by decide)]
    exact hD1
  have hU4 : "Units" ∈ T4.header := by
    rw [← e4, setColumnWith_header_mem _ _ _ _ (by decide), ← e3,
      setColumnWith_header_mem _ _ _ _ (by decide)]
    exact hU2
  have hP4 : "UnitPrice" ∈ T4.header := by
    rw [← e4, setColumnWith_header_mem _ _ _ _ (by decide)]
    exact hP3
  refine ⟨hwf4, hD4, hU4, hP4, hR4, ?_⟩
  intro row hrow
  obtain ⟨r3, hr3, hself4, hother4⟩ := hrows4 row hrow
  obtain ⟨r2, hr2, hself3, hother3⟩ := hrows3 r3 hr3
  obtain ⟨r1, hr1, hself2, hother2⟩ := hrows2 r2 hr2
  obtain ⟨r0, hr0, hself1, hother1⟩ := hrows1 r1 hr1
  have hu : getCol T4 "Units" row = toNumericCell (getAt r1 (colIdx T1.header "Units")) := by
    rw [hother4 "Units" (by decide), hother3 "Units" (by decide)]
    exact hself2
  have hp : getCol T4 "UnitPrice" row = toNumericCell (getAt r2 (colIdx T2.header "UnitPrice")) := by
    rw [hother4 "UnitPrice" (by decide)]
    exact hself3
  have hmiss : colIdx T0.header "Date" = colIdx (renameHeader raw.header) "Date" := rfl
  refine ⟨⟨_, hu⟩, ⟨_, hp⟩, ?_, ?_, ?_, ?_⟩
  · rw [hother4 "Units" (by decide), hother4 "UnitPrice" (by decide)]
    exact hself4
  · intro hm
    rw [hother4 "Date" (by decide), hother3 "Date" (by decide), hother2 "Date" (by decide)]
    have hnone : colIdx T0.header "Date" = none := hm
    rw [hself1, hnone]
    rfl
  · intro hm
    rw [hu]
    have : getAt r1 (colIdx T1.header "Units") = Cell.null := by
      have hnone : colIdx T1.header "Units" = none := by
        rw [colIdx_eq_none_iff, ← e1, setColumnWith_header_mem _ _ _ _ (by decide)]
        rw [← colIdx_eq_none_iff]
        exact hm
      rw [hnone]
      rfl
    rw [this]
    rfl
  · intro hm
    rw [hp]
    have : getAt r2 (colIdx T2.header "UnitPrice") = Cell.null := by
      have hnone : colIdx T2.header "UnitPrice" = none := by
        rw [colIdx_eq_none_iff, ← e2, setColumnWith_header_mem _ _ _ _ (by decide), ← e1,
          setColumnWith_header_mem _ _ _ _ (by decide)]
        rw [← colIdx_eq_none_iff]
        exact hm
      rw [hnone]
      rfl
    rw [this]
    rfl

/-- Column reads only depend on the header. -/
lemma getCol_eq_of_header (t1 t2 : Table) (h : t1.header = t2.header)
    (c : String) (r : List Cell) : getCol t1 c r = getCol t2 c r := by
  unfold getCol
  rw [h]

/-- Specification of a successful Normalizer run: the output keeps the
pre-drop header, is well-formed, and every surviving row comes from the
pre-drop table with numeric Units and UnitPrice and with Revenue equal to
their product. -/
lemma normalizeTable_ok_spec (raw t : Table) (hwf : raw.WF)
    (h : normalizeTable raw = Except.ok t) :
    t.header = (preDrop raw).header ∧ t.WF ∧
    ∀ row ∈ t.rows, row ∈ (preDrop raw).rows ∧
      ∃ u p : ℚ, getCol t "Units" row = Cell.num u ∧
        getCol t "UnitPrice" row = Cell.num p ∧
        getCol t "Revenue" row = Cell.num (u * p) := by
  obtain ⟨hwfP, hD, hU, hP, hR, hrows⟩ := preDrop_shape raw hwf
  unfold normalizeTable dropnaSubset at h
  by_cases hcond : (requiredCols.all fun c => (colIdx (preDrop raw).header c).isSome) = true
  · rw [if_pos hcond] at h
    injection h with h
    subst h
    refine ⟨rfl, ?_, ?_⟩
    · rw [WF_iff] at hwfP ⊢
      intro r hr
      simp only [List.mem_filter] at hr
      exact hwfP r hr.1
    · intro row hrow
      simp only [List.mem_filter] at hrow
      obtain ⟨hmem, hpred⟩ := hrow
      rw [List.all_eq_true] at hpred
      have hUnn : getCol (preDrop raw) "Units" row ≠ Cell.null := by
        have := hpred "Units" (by decide)
        simpa using this
      have hPnn : getCol (preDrop raw) "UnitPrice" row ≠ Cell.null := by
        have := hpred "UnitPrice" (by decide)
        simpa using this
      obtain ⟨⟨a, ha⟩, ⟨b, hb⟩, hmul, -, -, -⟩ := hrows row hmem
      obtain hnull | ⟨u, hu⟩ := toNumericCell_num_or_null a
      · exact absurd (ha.trans hnull) hUnn
      obtain hnull | ⟨p, hp⟩ := toNumericCell_num_or_null b
      · exact absurd (hb.trans hnull) hPnn
      have hu2 : getCol (preDrop raw) "Units" row = Cell.num u := ha.trans hu
      have hp2 : getCol (preDrop raw) "UnitPrice" row = Cell.num p := hb.trans hp
      refine ⟨hmem, u, p, hu2, hp2, ?_⟩
      show getCol (preDrop raw) "Revenue" row = Cell.num (u * p)
      rw [hmul, hu2, hp2]
      rfl
  · rw [if_neg hcond] at h
    exact Except.noConfusion h

/-- The region filter keeps the header. -/
lemma regionFilter_header (t : Table) (sel : List String) :
    (regionFilter t sel).header = t.header := by
  unfold regionFilter
  split <;> rfl

/-- The product filter keeps the header. -/
lemma productFilter_header (t : Table) (sel : List String) :
    (productFilter t sel).header = t.header := by
  unfold productFilter
  split <;> rfl

/-- The date filter keeps the header. -/
lemma dateFilter_header (t : Table) (range : Option (ℤ × ℤ)) :
    (dateFilter t range).header = t.header := by
  cases range with
  | none => rfl
  | some p => cases p; rfl

/-- The Filter Engine keeps the header. -/
lemma filterTable_header (t : Table) (sel : FilterSelection) :
    (filterTable t sel).header = t.header := by
  unfold filterTable
  rw [dateFilter_header, productFilter_header, regionFilter_header]

/-- Region-filtered rows are rows of the input. -/
lemma regionFilter_rows_sub (t : Table) (sel : List String) :
    ∀ r ∈ (regionFilter t sel).rows, r ∈ t.rows := by
  unfold regionFilter
  split
  · intro r hr
    exact absurd hr (by simp)
  · intro r hr
    exact (List.mem_filter.mp hr).1

/-- Product-filtered rows are rows of the input. -/
lemma productFilter_rows_sub (t : Table) (sel : List String) :
    ∀ r ∈ (productFilter t sel).rows, r ∈ t.rows := by
  unfold productFilter
  split
  · intro r hr
    exact absurd hr (by simp)
  · intro r hr
    exact (List.mem_filter.mp hr).1

/-- Date-filtered rows are rows of the input. -/
lemma dateFilter_rows_sub (t : Table) (range : Option (ℤ × ℤ)) :
    ∀ r ∈ (dateFilter t range).rows, r ∈ t.rows := by
  cases range with
  | none => intro r hr; exact hr
  | some p =>
    cases p
    intro r hr
    exact (List.mem_filter.mp hr).1

/-- Filtered rows are rows of the input. -/
lemma filterTable_rows_sub (t : Table) (sel : FilterSelection) :
    ∀ r ∈ (filterTable t sel).rows, r ∈ t.rows := by
  intro r hr
  exact regionFilter_rows_sub _ _ _
    (productFilter_rows_sub _ _ _ (dateFilter_rows_sub _ _ _ hr))

/-- The region filter of a row-less table has no rows. -/
lemma regionFilter_rows_nil (t : Table) (sel : List String) (h : t.rows = []) :
    (regionFilter t sel).rows = [] := by
  unfold regionFilter
  split <;> simp [h]

/-- Claim C9: every row that survives the Normalizer has non-null Revenue,
the property is preserved by the Filter Engine, and therefore the final
Revenue dropna is the identity: the Revenue-complete table equals the
filtered table. -/
theorem C9_final_revenue_drop_noop (raw t : Table) (sel : FilterSelection)
    (hwf : raw.WF) (h : normalizeTable raw = Except.ok t) :
    (∀ row ∈ t.rows, getCol t "Revenue" row ≠ Cell.null) ∧
    (∀ row ∈ (filterTable t sel).rows,
      getCol (filterTable t sel) "Revenue" row ≠ Cell.null) ∧
    dfClean (filterTable t sel) = Except.ok (filterTable t sel) := by
  obtain ⟨hhdr, hwfT, hrows⟩ := normalizeTable_ok_spec raw t hwf h
  have hnn : ∀ row ∈ t.rows, getCol t "Revenue" row ≠ Cell.null := by
    intro row hrow
    obtain ⟨-, u, p, -, -, hrev⟩ := hrows row hrow
    rw [hrev]
    exact fun hc => Cell.noConfusion hc
  have hfil : ∀ row ∈ (filterTable t sel).rows,
      getCol (filterTable t sel) "Revenue" row ≠ Cell.null := by
    intro row hrow
    rw [getCol_eq_of_header _ t (filterTable_header t sel) _ _]
    exact hnn row (filterTable_rows_sub t sel row hrow)
  refine ⟨hnn, hfil, ?_⟩
  have hRev : "Revenue" ∈ (filterTable t sel).header := by
    rw [filterTable_header, hhdr]
    exact (preDrop_shape raw hwf).2.2.2.2.1
  have hcond : ((["Revenue"] : List String).all
      fun c => (colIdx (filterTable t sel).header c).isSome) = true := by
    simp only [List.all_cons, List.all_nil, Bool.and_true]
    rw [colIdx_isSome_iff]
    exact hRev
  unfold dfClean dropnaSubset
  rw [if_pos hcond]
  have hfid : ((filterTable t sel).rows.filter fun r =>
      (["Revenue"] : List String).all fun c =>
        !(getAt r (colIdx (filterTable t sel).header c) == Cell.null)) =
      (filterTable t sel).rows := by
    rw [List.filter_eq_self]
    intro row hrow
    simp only [List.all_cons, List.all_nil, Bool.and_true, Bool.not_eq_true',
      beq_eq_false_iff_ne, ne_eq]
    exact hfil row hrow
  rw [hfid]

/-- Witness for C9 at the concrete one-row table. -/
theorem C9_witness :
    (∀ row ∈ cleanOneRow.rows, getCol cleanOneRow "Revenue" row ≠ Cell.null) ∧
    (∀ row ∈ (filterTable cleanOneRow dayZeroSelection).rows,
      getCol (filterTable cleanOneRow dayZeroSelection) "Revenue" row ≠ Cell.null) ∧
    dfClean (filterTable cleanOneRow dayZeroSelection) =
      Except.ok (filterTable cleanOneRow dayZeroSelection) :=
  C9_final_revenue_drop_noop rawOneRow cleanOneRow dayZeroSelection rfl rfl

/-- Claim C10: when the raw table has Product and Region columns but lacks
one of Date, Units or UnitPrice, the Normalizer creates the missing
canonical column filled with nulls, the completeness drop removes every
row, and the whole pipeline yields an empty table without an error. -/
theorem C10_missing_typed_column_empty (raw : Table) (hwf : raw.WF)
    (hP : "Product" ∈ renameHeader raw.header)
    (hR : "Region" ∈ renameHeader raw.header)
    (c : String) (hc : c ∈ ["Date", "Units", "UnitPrice"])
    (hmiss : colIdx (renameHeader raw.header) c = none) :
    (c ∈ (preDrop raw).header ∧
      ∀ row ∈ (preDrop raw).rows, getCol (preDrop raw) c row = Cell.null) ∧
    (∃ t, normalizeTable raw = Except.ok t ∧ t.rows = []) ∧
    (∀ sel, ∃ t2, pipelineFiltered raw sel = Except.ok t2 ∧ t2.rows = []) := by
  obtain ⟨hwfP, hD, hU, hPr, hRev, hrows⟩ := preDrop_shape raw hwf
  have hcmem : c ∈ (preDrop raw).header := by
    simp only [List.mem_cons, List.not_mem_nil, or_false] at hc
    rcases hc with rfl | rfl | rfl
    · exact hD
    · exact hU
    · exact hPr
  have hcnull : ∀ row ∈ (preDrop raw).rows, getCol (preDrop raw) c row = Cell.null := by
    intro row hrow
    obtain ⟨-, -, -, hd, hu, hp⟩ := hrows row hrow
    simp only [List.mem_cons, List.not_mem_nil, or_false] at hc
    rcases hc with rfl | rfl | rfl
    · exact hd hmiss
    · exact hu hmiss
    · exact hp hmiss
  have hProd : "Product" ∈ (preDrop raw).header := by
    rw [preDrop_header_mem raw "Product" (by decide) (by decide) (by decide) (by decide)]
    exact hP
  have hReg : "Region" ∈ (preDrop raw).header := by
    rw [preDrop_header_mem raw "Region" (by decide) (by decide) (by decide) (by decide)]
    exact hR
  have hcond : (requiredCols.all fun c2 => (colIdx (preDrop raw).header c2).isSome) = true := by
    rw [List.all_eq_true]
    intro x hx
    rw [colIdx_isSome_iff]
    simp only [requiredCols, List.mem_cons, List.not_mem_nil, or_false] at hx
    rcases hx with rfl | rfl | rfl | rfl | rfl
    · exact hD
    · exact hProd
    · exact hReg
    · exact hU
    · exact hPr
  have hcreq : c ∈ requiredCols := by
    simp only [List.mem_cons, List.not_mem_nil, or_false] at hc
    rcases hc with rfl | rfl | rfl <;> decide
  have hnorm : normalizeTable raw =
      Except.ok ⟨(preDrop raw).header, []⟩ := by
    unfold normalizeTable dropnaSubset
    rw [if_pos hcond]
    have hfil : ((preDrop raw).rows.filter fun r =>
        requiredCols.all fun c2 => !(getAt r (colIdx (preDrop raw).header c2) == Cell.null)) = [] := by
      rw [List.filter_eq_nil_iff]
      intro row hrow hpred
      rw [List.all_eq_true] at hpred
      have := hpred c hcreq
      rw [show getAt row (colIdx (preDrop raw).header c) = Cell.null from hcnull row hrow] at this
      simp at this
    rw [hfil]
  refine ⟨⟨hcmem, hcnull⟩, ⟨⟨(preDrop raw).header, []⟩, hnorm, rfl⟩, ?_⟩
  intro sel
  set t : Table := ⟨(preDrop raw).header, []⟩ with htdef
  have hfrows : (filterTable t sel).rows = [] := by
    unfold filterTable
    apply dateFilter_rows_nil
    apply productFilter_rows_nil
    apply regionFilter_rows_nil
    rfl
  have hRevF : "Revenue" ∈ (filterTable t sel).header := by
    rw [filterTable_header]
    exact hRev
  have hcond2 : ((["Revenue"] : List String).all
      fun c2 => (colIdx (filterTable t sel).header c2).isSome) = true := by
    simp only [List.all_cons, List.all_nil, Bool.and_true]
    rw [colIdx_isSome_iff]
    exact hRevF
  refine ⟨⟨(filterTable t sel).header, []⟩, ?_, rfl⟩
  unfold pipelineFiltered
  rw [hnorm]
  show dfClean (filterTable t sel) = Except.ok ⟨(filterTable t sel).header, []⟩
  unfold dfClean dropnaSubset
  rw [if_pos hcond2, hfrows]
  rfl

/-- Witness for C10 at the concrete table lacking a Units column. -/
theorem C10_witness :
    (("Units" : String) ∈ (preDrop rawNoUnits).header ∧
      ∀ row ∈ (preDrop rawNoUnits).rows, getCol (preDrop rawNoUnits) "Units" row = Cell.null) ∧
    (∃ t, normalizeTable rawNoUnits = Except.ok t ∧ t.rows = []) ∧
    (∀ sel, ∃ t2, pipelineFiltered rawNoUnits sel = Except.ok t2 ∧ t2.rows = []) :=
  C10_missing_typed_column_empty rawNoUnits rfl (by decide) (by decide) "Units"
    (by decide) (by decide)

/-- Stable insertion is a permutation of consing. -/
lemma insertBy_perm (le : α → α → Bool) (x : α) (l : List α) :
    (insertBy le x l).Perm (x :: l) := by
  induction l with
  | nil => exact List.Perm.refl _
  | cons y ys ih =>
    unfold insertBy
    split
    · exact List.Perm.refl _
    · exact (ih.cons y).trans (List.Perm.swap x y ys)

/-- Insertion sort permutes its input. -/
lemma sortBy_perm (le : α → α → Bool) (l : List α) : (sortBy le l).Perm l := by
  induction l with
  | nil => exact List.Perm.refl _
  | cons x xs ih => exact (insertBy_perm le x (sortBy le xs)).trans (ih.cons x)

/-- Inserting into a comparator-sorted list keeps it sorted, for a total
comparator. -/
lemma chain'_insertBy (le : α → α → Bool)
    (htot : ∀ a b, le a b = false → le b a = true) (x : α) (l : List α)
    (h : List.Chain' (fun a b => le a b = true) l) :
    List.Chain' (fun a b => le a b = true) (insertBy le x l) := by
  induction l with
  | nil => simp [insertBy]
  | cons y ys ih =>
    unfold insertBy
    split
    case isTrue hxy => exact List.Chain'.cons hxy h
    case isFalse hxy =>
      have hyx : le y x = true := htot x y (by simpa using hxy)
      have hins := ih h.tail
      rw [List.chain'_cons']
      refine ⟨?_, hins⟩
      intro b hb
      cases ys with
      | nil =>
        simp only [insertBy, List.head?_cons, Option.mem_def, Option.some.injEq] at hb
        rw [← hb]
        exact hyx
      | cons z zs =>
        rw [insertBy] at hb
        split at hb
        · simp only [List.head?_cons, Option.mem_def, Option.some.injEq] at hb
          rw [← hb]
          exact hyx
        · simp only [List.head?_cons, Option.mem_def, Option.some.injEq] at hb
          rw [← hb]
          exact h.rel_head

/-- Insertion sort sorts, for a total comparator. -/
lemma chain'_sortBy (le : α → α → Bool)
    (htot : ∀ a b, le a b = false → le b a = true) (l : List α) :
    List.Chain' (fun a b => le a b = true) (sortBy le l) := by
  induction l with
  | nil => simp [sortBy]
  | cons x xs ih => exact chain'_insertBy le htot x (sortBy le xs) ih

/-- The ascending-revenue comparator is total. -/
lemma ascLeQ_total (a b : Cell × ℚ) (h : ascLeQ a b = false) :
    ascLeQ b a = true := by
  simp only [ascLeQ, decide_eq_false_iff_not, not_le] at h
  simp only [ascLeQ, decide_eq_true_eq]
  exact le_of_lt h

/-- Claim C7: revenueByRegion has one (Region, summed Revenue) pair per
distinct region of the table, is ordered descending by summed revenue, and
on rows [(East,300),(West,100),(East,50)] equals [(East,350),(West,100)]. -/
theorem C7_revenue_by_region (t : Table) :
    ((rev_by_region t).map Prod.fst).Perm (distinctKeys t "Region") ∧
    (∀ p ∈ rev_by_region t, p.2 = keyValSum t "Region" "Revenue" p.1) ∧
    List.Chain' (fun a b : Cell × ℚ => b.2 ≤ a.2) (rev_by_region t) ∧
    rev_by_region revByRegionExample =
      [(Cell.str "East", 350), (Cell.str "West", 100)] := by
  refine ⟨?_, ?_, ?_, by decide⟩
  · have h1 : (rev_by_region t).Perm (groupSum t "Region" "Revenue") :=
      (List.reverse_perm _).trans (sortBy_perm ascLeQ _)
    have h2 := h1.map Prod.fst
    have h3 : (groupSum t "Region" "Revenue").map Prod.fst =
        sortBy cellLeB (distinctKeys t "Region") := by
      unfold groupSum
      rw [List.map_map,
        show (Prod.fst ∘ fun k => (k, keyValSum t "Region" "Revenue" k)) = id from rfl,
        List.map_id]
    refine h2.trans ?_
    rw [h3]
    exact sortBy_perm cellLeB _
  · intro p hp
    have hmem : p ∈ groupSum t "Region" "Revenue" :=
      ((List.reverse_perm _).trans (sortBy_perm ascLeQ _)).mem_iff.mp hp
    unfold groupSum at hmem
    rw [List.mem_map] at hmem
    obtain ⟨k, hk, hpk⟩ := hmem
    rw [← hpk]
  · have hchain := chain'_sortBy ascLeQ ascLeQ_total (groupSum t "Region" "Revenue")
    have hrev : List.Chain' (fun a b : Cell × ℚ => ascLeQ b a = true)
        (rev_by_region t) := List.chain'_reverse.mpr hchain
    refine List.Chain'.imp ?_ hrev
    intro a b hab
    simpa [ascLeQ] using hab

/-- Witness for C7's row property at the concrete example table. -/
theorem C7_witness :
    ∀ p ∈ rev_by_region revByRegionExample,
      p.2 = keyValSum revByRegionExample "Region" "Revenue" p.1 :=
  (C7_revenue_by_region revByRegionExample).2.1

/-- Parsing a quoted-and-escaped field recovers it, provided the remainder
does not begin with a quote (in a serialized document it begins with a
separator or is empty). -/
lemma parseQuoted_append (s rest : List Char) (hrest : rest.head? ≠ some '"') :
    parseQuoted (doubleQuotes s ++ '"' :: rest) = some (s, rest) := by
  induction s with
  | nil =>
    show parseQuoted ('"' :: rest) = some ([], rest)
    cases rest with
    | nil => rfl
    | cons c2 rest2 =>
      have hc2 : ¬(c2 = '"') := fun h => hrest (by rw [h]; rfl)
      show (if c2 = '"' then (parseQuoted rest2).map fun p => ('"' :: p.1, p.2)
        else some ([], c2 :: rest2)) = some ([], c2 :: rest2)
      rw [if_neg hc2]
  | cons c s2 ih =>
    rw [doubleQuotes]
    by_cases hc : c = '"'
    · rw [if_pos hc]
      show parseQuoted ('"' :: '"' :: (doubleQuotes s2 ++ '"' :: rest)) = _
      show (if ('"' : Char) = '"' then
          (parseQuoted (doubleQuotes s2 ++ '"' :: rest)).map fun p => ('"' :: p.1, p.2)
        else some ([], '"' :: (doubleQuotes s2 ++ '"' :: rest))) = _
      rw [if_pos rfl, ih]
      rw [hc]
      rfl
    · rw [if_neg hc, List.cons_append, parseQuoted.eq_def]
      show (if c = '"' then
          match doubleQuotes s2 ++ '"' :: rest with
          | [] => some ([], [])
          | c2 :: rest2 =>
            if c2 = '"' then (parseQuoted rest2).map fun p => ('"' :: p.1, p.2)
            else some ([], c2 :: rest2)
        else (parseQuoted (doubleQuotes s2 ++ '"' :: rest)).map fun p => (c :: p.1, p.2)) =
        some (c :: s2, rest)
      rw [if_neg hc, ih]
      rfl

/-- Parsing an unquoted field runs to the separator and recovers it. -/
lemma parseUnquoted_append (s rest : List Char)
    (hs : ∀ c ∈ s, ¬(c = ',' ∨ c = '\n'))
    (hrest : rest.head? = none ∨ rest.head? = some ',' ∨ rest.head? = some '\n') :
    parseUnquoted (s ++ rest) = (s, rest) := by
  induction s with
  | nil =>
    rw [List.nil_append]
    cases rest with
    | nil => rfl
    | cons c rs =>
      have hc : c = ',' ∨ c = '\n' := by
        rcases hrest with h | h | h
        · exact absurd h (by simp)
        · simp only [List.head?_cons, Option.some.injEq] at h
          exact Or.inl h
        · simp only [List.head?_cons, Option.some.injEq] at h
          exact Or.inr h
      rw [parseUnquoted, if_pos hc]
  | cons c s2 ih =>
    have hc : ¬(c = ',' ∨ c = '\n') := hs c (List.mem_cons_self c s2)
    rw [List.cons_append, parseUnquoted, if_neg hc,
      ih (fun c2 h2 => hs c2 (List.mem_cons_of_mem c h2))]

/-- Parsing an escaped field recovers it at a field boundary. -/
lemma parseField_escape (s rest : List Char)
    (hrest : rest.head? = none ∨ rest.head? = some ',' ∨ rest.head? = some '\n') :
    parseField (escField s ++ rest) = some (s, rest) := by
  have hrq : rest.head? ≠ some '"' := by rcases hrest with h | h | h <;> simp [h]
  by_cases hq : needsQuote s = true
  · have hesc : escField s = '"' :: (doubleQuotes s ++ ['"']) := by
      unfold escField
      rw [hq]
      rfl
    rw [hesc, List.cons_append, List.append_assoc, List.singleton_append]
    rw [parseField, if_pos rfl]
    exact parseQuoted_append s rest hrq
  · have hq2 : needsQuote s = false := by simpa using hq
    have hesc : escField s = s := by
      unfold escField
      rw [hq2]
      rfl
    rw [hesc]
    have hall : ∀ c ∈ s, ¬(c = ',' ∨ c = '"' ∨ c = '\n' ∨ c = '\r') := by
      intro c hcmem hcbad
      have : needsQuote s = true := by
        unfold needsQuote
        rw [List.any_eq_true]
        refine ⟨c, hcmem, ?_⟩
        rcases hcbad with rfl | rfl | rfl | rfl <;> rfl
      rw [this] at hq2
      exact Bool.noConfusion hq2
    have hnc : ∀ c ∈ s, ¬(c = ',' ∨ c = '\n') := by
      intro c hcmem hcbad
      exact hall c hcmem (by tauto)
    cases s with
    | nil =>
      rw [List.nil_append]
      rcases hrest with h | h | h
      · rw [List.head?_eq_none_iff] at h
        subst h
        rfl
      all_goals
        cases rest with
        | nil => simp at h
        | cons c rs =>
          simp only [List.head?_cons, Option.some.injEq] at h
          subst h
          rfl
    | cons c s2 =>
      have hcq : ¬(c = '"') := fun h =>
        hall c (List.mem_cons_self c s2) (Or.inr (Or.inl h))
      rw [List.cons_append, parseField, if_neg hcq]
      have hun := parseUnquoted_append (c :: s2) rest hnc hrest
      rw [List.cons_append] at hun
      rw [hun]

/-- A serialized row is at most one shorter than its field count. -/
lemma serRow_length (r : List (List Char)) : r.length ≤ (serRow r).length + 1 := by
  induction r with
  | nil => simp [serRow]
  | cons f fs ih =>
    cases fs with
    | nil => simp [serRow]
    | cons g gs =>
      rw [show serRow (f :: g :: gs) = escField f ++ ',' :: serRow (g :: gs) from rfl]
      simp only [List.length_append, List.length_cons] at ih ⊢
      omega

/-- Unfolding of the serialized table at a row. -/
lemma serTable_cons (r : List (List Char)) (rs : List (List (List Char))) :
    serTable (r :: rs) = serRow r ++ '\n' :: serTable rs := by
  show ((serRow r ++ ['\n']) :: rs.map fun r2 => serRow r2 ++ ['\n']).flatten = _
  rw [List.flatten_cons, List.append_assoc, List.singleton_append]
  rfl

/-- A serialized table has at least one character per row. -/
lemma serTable_length (rowsText : List (List (List Char))) :
    rowsText.length ≤ (serTable rowsText).length := by
  induction rowsText with
  | nil => simp [serTable]
  | cons r rs ih =>
    rw [serTable_cons]
    simp only [List.length_append, List.length_cons] at ih ⊢
    omega

/-- Parsing a serialized record recovers it, with enough fuel. -/
lemma parseRowAux_ser (r : List (List Char)) (rest : List Char) (fuel : Nat)
    (hne : r ≠ []) (hfuel : r.length ≤ fuel) :
    parseRowAux fuel (serRow r ++ '\n' :: rest) = some (r, rest) := by
  induction r generalizing fuel with
  | nil => exact absurd rfl hne
  | cons f fs ih =>
    cases fuel with
    | zero => simp at hfuel
    | succ fuel2 =>
      cases fs with
      | nil =>
        rw [show serRow [f] = escField f from rfl, parseRowAux,
          parseField_escape f ('\n' :: rest) (Or.inr (Or.inr rfl))]
        rfl
      | cons g gs =>
        rw [show serRow (f :: g :: gs) = escField f ++ ',' :: serRow (g :: gs) from rfl,
          List.append_assoc, List.cons_append, parseRowAux,
          parseField_escape f (',' :: (serRow (g :: gs) ++ '\n' :: rest))
            (Or.inr (Or.inl rfl))]
        show (parseRowAux fuel2 (serRow (g :: gs) ++ '\n' :: rest)).map
            (fun p => (f :: p.1, p.2)) = some (f :: g :: gs, rest)
        rw [ih fuel2 (by simp) (by simp only [List.length_cons] at hfuel ⊢; omega)]
        rfl

/-- Parsing a serialized table recovers every record, with enough fuel. -/
lemma parseCsvAux_ser (rowsText : List (List (List Char))) (fuel : Nat)
    (hne : ∀ r ∈ rowsText, r ≠ []) (hfuel : rowsText.length ≤ fuel) :
    parseCsvAux fuel (serTable rowsText) = some rowsText := by
  induction rowsText generalizing fuel with
  | nil =>
    cases fuel with
    | zero => rfl
    | succ f2 => rfl
  | cons r rs ih =>
    cases fuel with
    | zero => simp at hfuel
    | succ fuel2 =>
      rw [serTable_cons, parseCsvAux]
      have hcsne : ¬((serRow r ++ '\n' :: serTable rs).isEmpty = true) := by
        simp
      rw [if_neg hcsne]
      have hbound : r.length ≤ (serRow r ++ '\n' :: serTable rs).length + 1 := by
        have h1 := serRow_length r
        simp only [List.length_append, List.length_cons]
        omega
      rw [parseRowAux_ser r (serTable rs) _ (hne r (List.mem_cons_self r rs)) hbound]
      show (parseCsvAux fuel2 (serTable rs)).map (fun rows => r :: rows) = some (r :: rs)
      rw [ih fuel2 (fun r2 h2 => hne r2 (List.mem_cons_of_mem r h2))
        (by simp only [List.length_cons] at hfuel; omega)]
      rfl

/-- Claim C8: exporting the filtered-and-cleaned table to CSV (header row
of column names, one comma-delimited line per record, minimal quoting) and
re-parsing the CSV yields exactly the header and the rendered cell values
of every row — same row count, same column values, with the concrete date
string format abstracted by `renderCell`. -/
theorem C8_csv_roundtrip (t : Table) (hhdr : t.header ≠ []) (hwf : t.WF) :
    parseCsv (toCsvChars t) =
      some ((t.header.map String.data) ::
        t.rows.map fun r => r.map fun c => (renderCell c).data) ∧
    (parseCsv (toCsvChars t)).map List.length = some (t.rows.length + 1) := by
  rw [WF_iff] at hwf
  have hmain : parseCsv (toCsvChars t) =
      some ((t.header.map String.data) ::
        t.rows.map fun r => r.map fun c => (renderCell c).data) := by
    unfold parseCsv toCsvChars
    apply parseCsvAux_ser
    · intro r hr
      rcases List.mem_cons.mp hr with h1 | h2
      · rw [h1]
        simp only [ne_eq, List.map_eq_nil_iff]
        exact hhdr
      · rw [List.mem_map] at h2
        obtain ⟨row, hrow, hr2⟩ := h2
        rw [← hr2]
        simp only [ne_eq, List.map_eq_nil_iff]
        intro hnil
        have := hwf row hrow
        rw [hnil] at this
        exact hhdr (List.length_eq_zero.mp this.symm)
    · have := serTable_length ((t.header.map String.data) ::
        t.rows.map fun r => r.map fun c => (renderCell c).data)
      omega
  refine ⟨hmain, ?_⟩
  rw [hmain]
  simp

/-- Witness for C8 at a concrete table whose fields exercise quoting. -/
theorem C8_witness :
    parseCsv (toCsvChars csvExample) =
      some ((csvExample.header.map String.data) ::
        csvExample.rows.map fun r => r.map fun c => (renderCell c).data) ∧
    (parseCsv (toCsvChars csvExample)).map List.length =
      some (csvExample.rows.length + 1) :=
  C8_csv_roundtrip csvExample (by decide) rfl

/-- getD of a valid position is a member. -/
lemma getD_mem {α : Type} (l : List α) (j : Nat) (d : α) (h : j < l.length) :
    l.getD j d ∈ l := by
  induction l generalizing j with
  | nil => simp at h
  | cons x xs ih =>
    cases j with
    | zero => exact List.mem_cons_self x xs
    | succ j2 => exact List.mem_cons_of_mem x (ih j2 (by simpa using h))

/-- Lists are equal when their getD values agree at every position. -/
lemma list_eq_of_getD {α : Type} (l l2 : List α) (d : α)
    (hlen : l.length = l2.length)
    (h : ∀ j, j < l.length → l.getD j d = l2.getD j d) : l = l2 := by
  induction l generalizing l2 with
  | nil =>
    cases l2 with
    | nil => rfl
    | cons y ys => simp at hlen
  | cons x xs ih =>
    cases l2 with
    | nil => simp at hlen
    | cons y ys =>
      have hxy : x = y := h 0 (by simp)
      have htail : xs = ys :=
        ih ys (by simpa using hlen) (fun j hj => h (j + 1) (by simpa using hj))
      rw [hxy, htail]

/-- Pointwise-equal maps over equally long lists are equal. -/
lemma map_eq_of_zip {α β : Type} (l l2 : List α) (g g2 : α → β)
    (hlen : l.length = l2.length)
    (h : ∀ p ∈ l.zip l2, g p.1 = g2 p.2) : l.map g = l2.map g2 := by
  induction l generalizing l2 with
  | nil =>
    cases l2 with
    | nil => rfl
    | cons y ys => simp at hlen
  | cons x xs ih =>
    cases l2 with
    | nil => simp at hlen
    | cons y ys =>
      have hx : g x = g2 y := h (x, y) (by rw [List.zip_cons_cons]; exact List.mem_cons_self _ _)
      rw [List.map_cons, List.map_cons, hx,
        ih ys (by simpa using hlen)
          (fun p hp => h p (by rw [List.zip_cons_cons]; exact List.mem_cons_of_mem _ hp))]

/-- No position carries an absent column name. -/
lemma getD_ne_of_colIdx_none (hdr : List String) (c : String) (j : Nat)
    (hnone : colIdx hdr c = none) (hj : j < hdr.length) : hdr.getD j "" ≠ c := by
  rw [colIdx_eq_none_iff] at hnone
  intro hre
  exact hnone (hre ▸ getD_mem hdr j "" hj)

/-- Reading a non-Revenue column is invariant under row agreement. -/
lemma getAt_agree (hdr : List String) (c : String) (r r2 : List Cell)
    (hag : rowAgreeOffRev hdr r r2) (hlen : r.length = hdr.length)
    (hcne : c ≠ "Revenue") :
    getAt r (colIdx hdr c) = getAt r2 (colIdx hdr c) := by
  cases hci : colIdx hdr c with
  | none => rfl
  | some i =>
    show r.getD i Cell.null = r2.getD i Cell.null
    apply hag.2 i (by rw [hlen]; exact colIdx_lt_length _ _ _ hci)
    rw [colIdx_getD _ _ _ hci]
    exact hcne

/-- Assigning a non-Revenue column with values equal across the simulation
preserves the simulation. -/
lemma setColumnWith_sim (t t2 : Table) (c : String) (v v2 : List Cell → Cell)
    (hsim : tablesSim t t2) (hwf : t.WF) (hwf2 : t2.WF) (hcr : c ≠ "Revenue")
    (hv : ∀ p ∈ t.rows.zip t2.rows, v p.1 = v2 p.2) :
    tablesSim (setColumnWith t c v) (setColumnWith t2 c v2) := by
  obtain ⟨hhdr, hlen, hrows⟩ := hsim
  rw [WF_iff] at hwf hwf2
  cases hci : colIdx t.header c with
  | some i =>
    have hci2 : colIdx t2.header c = some i := by rw [← hhdr]; exact hci
    have e1 : setColumnWith t c v = ⟨t.header, t.rows.map fun r => r.set i (v r)⟩ := by
      unfold setColumnWith; rw [hci]
    have e2 : setColumnWith t2 c v2 = ⟨t2.header, t2.rows.map fun r => r.set i (v2 r)⟩ := by
      unfold setColumnWith; rw [hci2]
    rw [e1, e2]
    refine ⟨hhdr, by simpa using hlen, ?_⟩
    intro p hp
    rw [List.zip_map] at hp
    obtain ⟨q, hq, rfl⟩ := List.mem_map.mp hp
    obtain ⟨hqlen, hqagree⟩ := hrows q hq
    have hq1mem : q.1 ∈ t.rows := (List.of_mem_zip hq).1
    have hl1 : q.1.length = t.header.length := hwf q.1 hq1mem
    have hil : i < t.header.length := colIdx_lt_length _ _ _ hci
    refine ⟨by simp [hqlen], ?_⟩
    intro j hj hjne
    show (q.1.set i (v q.1)).getD j Cell.null = (q.2.set i (v2 q.2)).getD j Cell.null
    by_cases hji : j = i
    · subst hji
      rw [getD_set_self _ _ _ _ (by omega),
        getD_set_self _ _ _ _ (by rw [← hqlen]; omega)]
      exact hv q hq
    · rw [getD_set_ne _ _ _ _ _ (fun he => hji he.symm),
        getD_set_ne _ _ _ _ _ (fun he => hji he.symm)]
      exact hqagree j (by simpa using hj) hjne
  | none =>
    have hci2 : colIdx t2.header c = none := by rw [← hhdr]; exact hci
    have e1 : setColumnWith t c v = ⟨t.header ++ [c], t.rows.map fun r => r ++ [v r]⟩ := by
      unfold setColumnWith; rw [hci]
    have e2 : setColumnWith t2 c v2 = ⟨t2.header ++ [c], t2.rows.map fun r => r ++ [v2 r]⟩ := by
      unfold setColumnWith; rw [hci2]
    rw [e1, e2]
    refine ⟨by rw [hhdr], by simpa using hlen, ?_⟩
    intro p hp
    rw [List.zip_map] at hp
    obtain ⟨q, hq, rfl⟩ := List.mem_map.mp hp
    obtain ⟨hqlen, hqagree⟩ := hrows q hq
    have hq1mem : q.1 ∈ t.rows := (List.of_mem_zip hq).1
    have hl1 : q.1.length = t.header.length := hwf q.1 hq1mem
    refine ⟨by simp [hqlen], ?_⟩
    intro j hj hjne
    show (q.1 ++ [v q.1]).getD j Cell.null = (q.2 ++ [v2 q.2]).getD j Cell.null
    have hj2 : j < (q.1 ++ [v q.1]).length := hj
    simp only [List.length_append, List.length_cons, List.length_nil] at hj2
    by_cases hjlt : j < q.1.length
    · rw [getD_append_left _ _ _ _ hjlt, getD_append_left _ _ _ _ (by rw [← hqlen]; exact hjlt)]
      apply hqagree j hjlt
      intro hre
      rw [getD_append_left _ _ _ _ (by rw [← hl1]; exact hjlt)] at hjne
      exact hjne hre
    · have hjeq : j = q.1.length := by omega
      subst hjeq
      rw [getD_append_length, show q.1.length = q.2.length from hqlen, getD_append_length]
      exact hv q hq

/-- Coercing a non-Revenue column preserves the simulation, and changes
the header by at most appending that column. -/
lemma mapColumn_sim (t t2 : Table) (c : String) (f : Cell → Cell)
    (hsim : tablesSim t t2) (hwf : t.WF) (hwf2 : t2.WF) (hcr : c ≠ "Revenue") :
    tablesSim (mapColumn t c f) (mapColumn t2 c f) ∧
    (mapColumn t c f).WF ∧ (mapColumn t2 c f).WF ∧
    ((mapColumn t c f).header = t.header ∨
      (mapColumn t c f).header = t.header ++ [c]) := by
  have hv : ∀ p ∈ t.rows.zip t2.rows,
      f (getAt p.1 (colIdx t.header c)) = f (getAt p.2 (colIdx t2.header c)) := by
    intro p hp
    have hag := hsim.2.2 p hp
    rw [← hsim.1,
      getAt_agree t.header c p.1 p.2 hag
        ((WF_iff t).mp hwf p.1 (List.of_mem_zip hp).1) hcr]
  refine ⟨setColumnWith_sim t t2 c _ _ hsim hwf hwf2 hcr hv,
    (setColumnWith_rows_spec t c _ hwf).1, (setColumnWith_rows_spec t2 c _ hwf2).1, ?_⟩
  show (setColumnWith t c fun r => f (getAt r (colIdx t.header c))).header = t.header ∨
    (setColumnWith t c fun r => f (getAt r (colIdx t.header c))).header = t.header ++ [c]
  rw [setColumnWith_header]
  split
  · exact Or.inl rfl
  · exact Or.inr rfl

/-- Appending a non-Revenue column preserves Revenue-label uniqueness. -/
lemma oneRev_append (hdr : List String) (c : String) (hc : c ≠ "Revenue")
    (h : ∀ j k, j < hdr.length → k < hdr.length → hdr.getD j "" = "Revenue" →
      hdr.getD k "" = "Revenue" → j = k) :
    ∀ j k, j < (hdr ++ [c]).length → k < (hdr ++ [c]).length →
      (hdr ++ [c]).getD j "" = "Revenue" → (hdr ++ [c]).getD k "" = "Revenue" → j = k := by
  intro j k hj hk hjr hkr
  simp only [List.length_append, List.length_cons, List.length_nil] at hj hk
  have hjlt : j < hdr.length := by
    by_contra hge
    have hje : j = hdr.length := by omega
    rw [hje, getD_append_length] at hjr
    exact hc hjr
  have hklt : k < hdr.length := by
    by_contra hge
    have hke : k = hdr.length := by omega
    rw [hke, getD_append_length] at hkr
    exact hc hkr
  rw [getD_append_left _ _ _ _ hjlt] at hjr
  rw [getD_append_left _ _ _ _ hklt] at hkr
  exact h j k hjlt hklt hjr hkr

/-- The Revenue recomputation equalizes two simulated tables when at most
one column is labelled Revenue. -/
lemma computeRevenue_eq_of_sim (t t2 : Table) (hsim : tablesSim t t2)
    (hwf : t.WF) (hwf2 : t2.WF)
    (hone : ∀ j k, j < t.header.length → k < t.header.length →
      t.header.getD j "" = "Revenue" → t.header.getD k "" = "Revenue" → j = k) :
    computeRevenue t = computeRevenue t2 := by
  obtain ⟨hhdr, hlen, hrows⟩ := hsim
  have hwfl := (WF_iff t).mp hwf
  have hv : ∀ p ∈ t.rows.zip t2.rows,
      mulCell (getAt p.1 (colIdx t.header "Units"))
        (getAt p.1 (colIdx t.header "UnitPrice")) =
      mulCell (getAt p.2 (colIdx t.header "Units"))
        (getAt p.2 (colIdx t.header "UnitPrice")) := by
    intro p hp
    have hag := hrows p hp
    have hl1 := hwfl p.1 (List.of_mem_zip hp).1
    rw [getAt_agree t.header "Units" p.1 p.2 hag hl1 (by decide),
      getAt_agree t.header "UnitPrice" p.1 p.2 hag hl1 (by decide)]
  unfold computeRevenue setColumnWith
  rw [← hhdr]
  cases hci : colIdx t.header "Revenue" with
  | some k =>
    show Table.mk t.header _ = Table.mk t.header _
    have hkh : k < t.header.length := colIdx_lt_length _ _ _ hci
    congr 1
    apply map_eq_of_zip _ _ _ _ hlen
    intro p hp
    have hag := hrows p hp
    have hl1 := hwfl p.1 (List.of_mem_zip hp).1
    apply list_eq_of_getD _ _ Cell.null (by simp [hag.1])
    intro j hj
    simp only [List.length_set] at hj
    by_cases hjk : j = k
    · subst hjk
      rw [getD_set_self _ _ _ _ (by omega),
        getD_set_self _ _ _ _ (by rw [← hag.1]; omega)]
      exact hv p hp
    · rw [getD_set_ne _ _ _ _ _ (fun he => hjk he.symm),
        getD_set_ne _ _ _ _ _ (fun he => hjk he.symm)]
      apply hag.2 j hj
      intro hrev
      exact hjk (hone j k (by omega) hkh hrev (colIdx_getD _ _ _ hci))
  | none =>
    show Table.mk (t.header ++ ["Revenue"]) _ = Table.mk (t.header ++ ["Revenue"]) _
    congr 1
    apply map_eq_of_zip _ _ _ _ hlen
    intro p hp
    have hag := hrows p hp
    have hl1 := hwfl p.1 (List.of_mem_zip hp).1
    have hreq : p.1 = p.2 := by
      apply list_eq_of_getD _ _ Cell.null hag.1
      intro j hj
      apply hag.2 j hj
      exact getD_ne_of_colIdx_none t.header "Revenue" j hci (by omega)
    rw [hreq]

/-- Revenue-label uniqueness transfers along an optional column append. -/
lemma oneRev_transfer (hdr hdr2 : List String) (c : String) (hc : c ≠ "Revenue")
    (hhd : hdr2 = hdr ∨ hdr2 = hdr ++ [c])
    (h : ∀ j k, j < hdr.length → k < hdr.length → hdr.getD j "" = "Revenue" →
      hdr.getD k "" = "Revenue" → j = k) :
    ∀ j k, j < hdr2.length → k < hdr2.length → hdr2.getD j "" = "Revenue" →
      hdr2.getD k "" = "Revenue" → j = k := by
  rcases hhd with rfl | rfl
  · exact h
  · exact oneRev_append hdr c hc h

/-- Null propagation of the Revenue product. -/
lemma mulCell_null (a b : Cell) (h : a = Cell.null ∨ b = Cell.null) :
    mulCell a b = Cell.null := by
  rcases h with rfl | rfl
  · cases b <;> rfl
  · cases a <;> rfl

/-- The whole Normalizer is insensitive to the values stored in a source
Revenue column: two raw tables agreeing off that column normalize
identically. -/
lemma preDrop_agree (raw raw2 : Table) (hwf : raw.WF) (hwf2 : raw2.WF)
    (hagree : tablesAgreeOffRev raw raw2) (hone : atMostOneRevCol raw.header) :
    preDrop raw = preDrop raw2 := by
  obtain ⟨hh, hl, hr⟩ := hagree
  have hsim0 : tablesSim (renameTable raw) (renameTable raw2) := by
    refine ⟨?_, hl, hr⟩
    show renameHeader raw.header = renameHeader raw2.header
    rw [hh]
  have hwf0 := renameTable_wf raw hwf
  have hwf02 := renameTable_wf raw2 hwf2
  have hone0 : ∀ j k, j < (renameTable raw).header.length →
      k < (renameTable raw).header.length →
      (renameTable raw).header.getD j "" = "Revenue" →
      (renameTable raw).header.getD k "" = "Revenue" → j = k := by
    intro j k hj hk h1 h2
    exact hone j (by simpa [renameTable, renameHeader] using hj) k
      (by simpa [renameTable, renameHeader] using hk) h1 h2
  obtain ⟨hsim1, hwfa1, hwfb1, hhd1⟩ :=
    mapColumn_sim _ _ "Date" toDatetimeCell hsim0 hwf0 hwf02 (by decide)
  have hone1 := oneRev_transfer _ _ "Date" (by decide) hhd1 hone0
  obtain ⟨hsim2, hwfa2, hwfb2, hhd2⟩ :=
    mapColumn_sim _ _ "Units" toNumericCell hsim1 hwfa1 hwfb1 (by decide)
  have hone2 := oneRev_transfer _ _ "Units" (by decide) hhd2 hone1
  obtain ⟨hsim3, hwfa3, hwfb3, hhd3⟩ :=
    mapColumn_sim _ _ "UnitPrice" toNumericCell hsim2 hwfa2 hwfb2 (by decide)
  have hone3 := oneRev_transfer _ _ "UnitPrice" (by decide) hhd3 hone2
  show computeRevenue _ = computeRevenue _
  exact computeRevenue_eq_of_sim _ _ hsim3 hwfa3 hwfb3 hone3

/-- Claim C2: for every surviving row, Revenue equals Units * UnitPrice
exactly; before the completeness drop a null operand makes Revenue null;
and the result never comes from a source column named Revenue — changing
that column's values (to anything) leaves the whole Normalizer output
unchanged. -/
theorem C2_revenue_recomputed (raw t : Table) (hwf : raw.WF)
    (h : normalizeTable raw = Except.ok t) :
    (∀ row ∈ t.rows, ∃ u p : ℚ,
      getCol t "Units" row = Cell.num u ∧
      getCol t "UnitPrice" row = Cell.num p ∧
      getCol t "Revenue" row = Cell.num (u * p)) ∧
    (∀ row ∈ (preDrop raw).rows,
      getCol (preDrop raw) "Units" row = Cell.null ∨
        getCol (preDrop raw) "UnitPrice" row = Cell.null →
      getCol (preDrop raw) "Revenue" row = Cell.null) ∧
    (∀ raw2, raw2.WF → tablesAgreeOffRev raw raw2 → atMostOneRevCol raw.header →
      normalizeTable raw2 = normalizeTable raw) := by
  refine ⟨?_, ?_, ?_⟩
  · intro row hrow
    exact ((normalizeTable_ok_spec raw t hwf h).2.2 row hrow).2
  · intro row hrow hnull
    obtain ⟨-, -, -, -, -, hrows⟩ := preDrop_shape raw hwf
    obtain ⟨-, -, hmul, -, -, -⟩ := hrows row hrow
    rw [hmul]
    exact mulCell_null _ _ hnull
  · intro raw2 hwf2 hagree hone
    have hpre := preDrop_agree raw raw2 hwf hwf2 hagree hone
    unfold normalizeTable
    rw [hpre]

/-- Witness for C2's non-interference at concrete tables that differ only
in the junk stored in the source Revenue column. -/
theorem C2_witness :
    normalizeTable rawWithRevenue2 = normalizeTable rawWithRevenue := by
  have hagree : tablesAgreeOffRev rawWithRevenue rawWithRevenue2 := by
    refine ⟨rfl, rfl, ?_⟩
    intro p hp
    have hp2 : p ∈ [((rawWithRevenue.rows.getD 0 []), (rawWithRevenue2.rows.getD 0 []))] := hp
    rw [List.mem_singleton] at hp2
    subst hp2
    refine ⟨rfl, ?_⟩
    intro j hj hne
    have hj6 : j < 6 := by simpa [rawWithRevenue] using hj
    interval_cases j <;> first | rfl | exact absurd rfl hne
  have hone : atMostOneRevCol rawWithRevenue.header := by
    intro j hj k hk h1 h2
    have hj6 : j < 6 := by simpa [rawWithRevenue] using hj
    have hk6 : k < 6 := by simpa [rawWithRevenue] using hk
    interval_cases j <;> interval_cases k <;>
      first
        | rfl
        | exact absurd h1 (by decide)
        | exact absurd h2 (by decide)
  exact (C2_revenue_recomputed rawWithRevenue
    ⟨["Date", "Product", "Region", "Units", "UnitPrice", "Revenue"],
     [[Cell.date 0, Cell.str "A", Cell.str "East", Cell.num 2, Cell.num 3, Cell.num 6]]⟩
    rfl rfl).2.2 rawWithRevenue2 rfl hagree hone
